import Mathlib

/-!
# FinRate-PH: verification of the review scraper, plotting and GUI layers

Shallow embedding of the FinRate-PH repository (files `scraper.py`,
`plotting.py`, `utils.py`, `gui.py`, with `main.py` holding textually
identical copies of the same functions).  Pure computations are embedded
as Lean functions; the stateful GUI actions are embedded as explicit
state transformers over a `GuiState` record; the external review
provider (`google_play_scraper.reviews`) is modelled as a finite trace
of responses, one consumed per call, each either a page of raw reviews
or a raised exception.
-/

set_option linter.unusedVariables false

/-- Calendar timestamp of a review (`review_date`).  The repository never
inspects sub-day resolution, so year/month/day suffices. -/
structure Date where
  year : Nat
  month : Nat
  day : Nat
deriving DecidableEq

/-- Strict chronological order on dates, lexicographic on
(year, month, day): the order `pandas.sort_values("review_date")` sorts by. -/
def dateLt (d e : Date) : Bool :=
  if d.year < e.year then true
  else if e.year < d.year then false
  else if d.month < e.month then true
  else if e.month < d.month then false
  else decide (d.day < e.day)

/-- Non-strict chronological order on dates. -/
def dateLe (d e : Date) : Bool := ! dateLt e d

/-- One raw review as returned by the provider: the fields
`content`, `at`, `score` read by `get_app_reviews` (`at` is a Lean
keyword, hence the trailing underscore). -/
structure RawReview where
  content : String
  at_ : Date
  score : Int
deriving DecidableEq

/-- One normalized review record, the dict built in
`scraper.get_app_reviews` lines 64-69 and the row schema of the
DataFrames held by the GUI. -/
structure Review where
  app_id : String
  review_text : String
  review_date : Date
  review_rating : Int
deriving DecidableEq

/-- The continuation token object returned by `reviews`; the code only
reads its `token` field and compares it against `None`. -/
structure ContToken where
  token : Option Nat
deriving DecidableEq

/-- One successful response of the `reviews` call: the `result` list and
the next continuation token. -/
structure Page where
  result : List RawReview
  next : ContToken
deriving DecidableEq

/-- A schedule of provider responses: the n-th call to `reviews` made by
`get_app_reviews` receives the n-th entry, either a page (`Except.ok`)
or a raised exception (`Except.error ()`). -/
abbrev Sched := List (Except Unit Page)

/-- The record built from one raw review, `scraper.py` lines 64-69. -/
def mkReview (appId : String) (raw : RawReview) : Review :=
  { app_id := appId
    review_text := raw.content
    review_date := raw.at_
    review_rating := raw.score }

/-- The early-return condition of `scraper.py` line 73:
`max_reviews is not None and review_count >= max_reviews`, checked after
the count was incremented. -/
def capReached (maxR : Option Int) (cnt : Nat) : Bool :=
  match maxR with
  | none => false
  | some m => decide ((cnt : Int) ≥ m)

/-- The `for review_data in result:` body of `scraper.py` lines 63-74:
append the normalized record, bump the count, and return early
(`Sum.inl`) as soon as the cap is reached; otherwise carry the extended
accumulator and count to the rest of the page (`Sum.inr`). -/
def processPage (maxR : Option Int) (appId : String) :
    List RawReview → List Review → Nat → List Review ⊕ (List Review × Nat)
  | [], acc, cnt => Sum.inr (acc, cnt)
  | raw :: rest, acc, cnt =>
    let acc' := acc ++ [mkReview appId raw]
    let cnt' := cnt + 1
    if capReached maxR cnt' then Sum.inl acc'
    else processPage maxR appId rest acc' cnt'

/-- Outcome of one `try:`-guarded pagination attempt (`scraper.py`
lines 52-81). -/
inductive AttemptOutcome where
  | done (res : List Review)
  | failed (rest : Sched) (acc : List Review) (cnt : Nat)
  | fuel

/-- One pagination attempt, the `while True:` loop of `scraper.py`
lines 53-81: each provider call consumes the head of the schedule; an
exception aborts the attempt carrying the accumulator, count and the
unconsumed schedule (`failed`); a cap hit or a `None` continuation token
finishes the attempt (`done`); an exhausted schedule means the trace is
too short to decide the run (`fuel`). -/
def runAttempt (maxR : Option Int) (appId : String) :
    Sched → List Review → Nat → AttemptOutcome
  | [], _, _ => .fuel
  | Except.error _ :: rest, acc, cnt => .failed rest acc cnt
  | Except.ok p :: rest, acc, cnt =>
    match processPage maxR appId p.result acc cnt with
    | Sum.inl final => .done final
    | Sum.inr (acc', cnt') =>
      if p.next.token = none then .done acc'
      else runAttempt maxR appId rest acc' cnt'

/-- The `for attempt in range(retries)` loop of `scraper.py` lines
51-88 with `n` attempts left: a failed attempt on the last iteration
returns `[]`; an earlier failure retries with the accumulator, count and
schedule position exactly as the exception left them, because the code
initializes `all_reviews`, `continuation_token` and `review_count`
outside the attempt loop. -/
def goAttempts (maxR : Option Int) (appId : String) :
    Sched → List Review → Nat → Nat → Option (List Review)
  | sched, acc, cnt, n =>
    match runAttempt maxR appId sched acc cnt with
    | .done r => some r
    | .fuel => none
    | .failed rest a c =>
      if h : n ≤ 1 then some []
      else goAttempts maxR appId rest a c (n - 1)
termination_by _ _ _ n => n
decreasing_by simp_wf; omega

/-- `scraper.get_app_reviews` (lines 28-88; `main.py` lines 59-103 are
the same function): run up to 3 pagination attempts against the
response schedule.  `none` means the schedule was too short to decide
the run. -/
def get_app_reviews (appId : String) (maxR : Option Int) (sched : Sched) :
    Option (List Review) :=
  goAttempts maxR appId sched [] 0 3

/-- Modelled from the spec: the retry discipline §4.2 describes — "the
entire attempt (all pages fetched so far in that attempt) is discarded
and retried from scratch" — i.e. every attempt restarts with an empty
accumulator and zero count.  Kept for contrast with `get_app_reviews`,
which does not reset this state. -/
def specDiscardGo (maxR : Option Int) (appId : String) :
    Sched → Nat → Option (List Review)
  | sched, n =>
    match runAttempt maxR appId sched [] 0 with
    | .done r => some r
    | .fuel => none
    | .failed rest _ _ =>
      if h : n ≤ 1 then some []
      else specDiscardGo maxR appId rest (n - 1)
termination_by _ n => n
decreasing_by simp_wf; omega

/-- Modelled from the spec: `get_app_reviews` under the spec's
discard-and-restart retry semantics. -/
def spec_get_app_reviews (appId : String) (maxR : Option Int)
    (sched : Sched) : Option (List Review) :=
  specDiscardGo maxR appId sched 3

/-- Number of reviews the response schedule offers to a single
pagination pass: records served up to and including the first page whose
continuation token is `None`; an exception or the end of the trace stops
the count. -/
def streamOffers : Sched → Nat
  | [] => 0
  | Except.error _ :: _ => 0
  | Except.ok p :: rest =>
    p.result.length + (if p.next.token = none then 0 else streamOffers rest)

/-- Mean of a list of rationals, `Series.mean()`: sum divided by length
(the repository only takes means of non-empty groups). -/
def mean (xs : List ℚ) : ℚ := xs.sum / (xs.length : ℚ)

/-- Stable insertion of a review into a date-sorted list: the review
goes after every strictly earlier entry and before the first entry that
is not strictly earlier, matching the stable sort used by
`DataFrame.sort_values("review_date")`. -/
def insertByDate (x : Review) : List Review → List Review
  | [] => [x]
  | y :: ys =>
    if dateLt y.review_date x.review_date then y :: insertByDate x ys
    else x :: y :: ys

/-- `df = reviews_df.sort_values("review_date")` (`plotting.py` line 37):
stable sort of the rows by ascending review date. -/
def sortByDate (rows : List Review) : List Review :=
  rows.foldr insertByDate []

/-- Running state of `Series.expanding().mean()`: given the sum `s` and
count `n` of the entries already passed, emit the running mean after
each further entry. -/
def expandingGo : List ℚ → ℚ → Nat → List ℚ
  | [], _, _ => []
  | x :: xs, s, n => ((s + x) / ((n : ℚ) + 1)) :: expandingGo xs (s + x) (n + 1)

/-- `df["review_rating"].expanding().mean()`: the i-th output is the
mean of the first i+1 inputs. -/
def expandingMean (xs : List ℚ) : List ℚ := expandingGo xs 0 0

/-- `df["review_rating"].rolling(window=w, min_periods=1).mean()`: the
i-th output is the mean of the last `min (i+1) w` inputs ending at i. -/
def rollingMean (w : Nat) (xs : List ℚ) : List ℚ :=
  (List.range xs.length).map fun i => mean ((xs.take (i + 1)).drop (i + 1 - w))

/-- The calendar-month grouping key `resample("M", on="review_date")`
buckets a row into: its (year, month) pair. -/
def monthKey (d : Date) : Nat × Nat := (d.year, d.month)

/-- First-occurrence deduplication of a key list. -/
def dedupKeys : List (Nat × Nat) → List (Nat × Nat)
  | [] => []
  | k :: ks => k :: dedupKeys (ks.filter fun x => decide (x ≠ k))
termination_by l => l.length
decreasing_by
  simp_wf
  exact Nat.lt_succ_of_le (List.length_filter_le _ _)

/-- Length of the day-count of a month, Gregorian rules; `resample("M")`
labels each bucket with this month-end date. -/
def daysInMonth (y m : Nat) : Nat :=
  if m = 2 then
    if y % 4 = 0 ∧ (y % 100 ≠ 0 ∨ y % 400 = 0) then 29 else 28
  else if m = 4 ∨ m = 6 ∨ m = 9 ∨ m = 11 then 30
  else 31

/-- The month-end label `resample("M")` gives a (year, month) bucket. -/
def monthEnd (k : Nat × Nat) : Date := ⟨k.1, k.2, daysInMonth k.1 k.2⟩

/-- `df.resample("M", on="review_date")["review_rating"].mean()`
(`plotting.py` lines 57-61) restricted to occupied months: one entry per
calendar month that holds at least one review, keyed by (year, month) in
chronological order, valued by the mean rating of that month's reviews.
(The pandas result additionally interpolates empty months between the
first and last review as NaN rows; those carry no ratings and are
dropped here.) -/
def monthlyAggregate (rows : List Review) : List ((Nat × Nat) × ℚ) :=
  let df := sortByDate rows
  (dedupKeys (df.map fun r => monthKey r.review_date)).map fun k =>
    (k, mean ((df.filter fun r => decide (monthKey r.review_date = k)).map
      fun r => (r.review_rating : ℚ)))

/-- The data `create_plot` hands to `ax.plot`, plus the labels it sets:
`xs`/`ys` are the plotted point coordinates. -/
structure PlotData where
  title : String
  ylabel : String
  xs : List Date
  ys : List ℚ

/-- `plotting.create_plot` (lines 8-84; same function in `main.py`):
`none` models the empty-DataFrame early return that draws the
"No Data Available" placeholder instead of a series.  Otherwise the rows
are date-sorted and one of four branches selects the aggregate: the
`cumulative` and the final unrecognized-kind branch both plot the
expanding mean, `rolling` the 30-sample rolling mean, `monthly` the
per-calendar-month mean against month-end labels. -/
def create_plot (reviews : List Review) (plot_type : String)
    (app_id : Option String) : Option PlotData :=
  if reviews = [] then none
  else
    let df := sortByDate reviews
    if plot_type = "cumulative" then
      some { title := "Cumulative Average Rating Over Time"
             ylabel := "Cumulative Average Rating"
             xs := df.map fun r => r.review_date
             ys := expandingMean (df.map fun r => (r.review_rating : ℚ)) }
    else if plot_type = "rolling" then
      some { title := "30-Day Rolling Average Rating Over Time"
             ylabel := "Rolling Average Rating"
             xs := df.map fun r => r.review_date
             ys := rollingMean 30 (df.map fun r => (r.review_rating : ℚ)) }
    else if plot_type = "monthly" then
      some { title := "Average Monthly Rating"
             ylabel := "Average Rating"
             xs := (monthlyAggregate reviews).map fun e => monthEnd e.1
             ys := (monthlyAggregate reviews).map fun e => e.2 }
    else
      some { title := "Cumulative Average Rating Over Time (Invalid plot_type)"
             ylabel := "Cumulative Average Rating"
             xs := df.map fun r => r.review_date
             ys := expandingMean (df.map fun r => (r.review_rating : ℚ)) }

/-- `plotting.create_combined_plot` (lines 87-173): one labelled series
per app; an empty mapping draws the "No Data Available" placeholder
(modelled as no series), an app with an empty DataFrame is skipped, and
each remaining app gets the same per-branch aggregate as `create_plot`. -/
def create_combined_plot (all_reviews_data : List (String × List Review))
    (plot_type : String) : List (String × List ℚ) :=
  if all_reviews_data = [] then []
  else
    all_reviews_data.filterMap fun p =>
      if p.2 = [] then none
      else
        let df := sortByDate p.2
        if plot_type = "cumulative" then
          some (p.1, expandingMean (df.map fun r => (r.review_rating : ℚ)))
        else if plot_type = "rolling" then
          some (p.1, rollingMean 30 (df.map fun r => (r.review_rating : ℚ)))
        else if plot_type = "monthly" then
          some (p.1, (monthlyAggregate p.2).map fun e => e.2)
        else
          some (p.1, expandingMean (df.map fun r => (r.review_rating : ℚ)))

/-- The local file system, as a mapping file name → file content. -/
abbrev FileSys := List (String × String)

/-- Write (or overwrite) one file, the effect of `DataFrame.to_csv`. -/
def fsWrite (fs : FileSys) (filename content : String) : FileSys :=
  (filename, content) :: fs.filter fun p => decide (p.1 ≠ filename)

/-- CSV text for a review set: header row plus one row per review, the
shape `to_csv(index=False)` produces for the fetched DataFrame. -/
def renderCsv (rows : List Review) : String :=
  rows.foldl
    (fun s r =>
      s ++ "\n" ++ r.app_id ++ "," ++ r.review_text ++ ","
        ++ toString r.review_date.year ++ "-" ++ toString r.review_date.month
        ++ "-" ++ toString r.review_date.day ++ "," ++ toString r.review_rating)
    "app_id,review_text,review_date,review_rating"

/-- `utils.save_reviews_to_csv` (lines 4-20; same function in
`main.py`): an empty DataFrame is reported and nothing is written;
otherwise the CSV for the rows is written to `filename`. -/
def save_reviews_to_csv (reviews_df : List Review) (filename : String)
    (fs : FileSys) : FileSys :=
  if reviews_df.isEmpty then fs
  else fsWrite fs filename (renderCsv reviews_df)

/-- The session state held by `AppReviewGUI`: the tracked id list
`self.app_ids`, the id→name mapping `self.app_names`, the rows of the
results tree `self.app_id_tree`, the value list of
`self.single_app_combo`, the fetched review sets `self.all_app_data`
(one ordered entry per app id), and `self.output_dir`. -/
structure GuiState where
  app_ids : List String
  app_names : List (String × String)
  tree_items : List (String × String)
  single_combo : List String
  all_app_data : List (String × List Review)
  output_dir : String
deriving DecidableEq

/-- Lookup in the `app_names` dict (`self.app_names[app_id]`). -/
def namesLookup (names : List (String × String)) (appId : String) : String :=
  match names.find? fun p => decide (p.1 = appId) with
  | some p => p.2
  | none => ""

/-- `AppReviewGUI.update_single_app_combobox` (`gui.py` lines 253-256):
the combobox values become the names of the tracked ids, in id-list
order. -/
def update_single_app_combobox (st : GuiState) : GuiState :=
  { st with single_combo := st.app_ids.map fun a => namesLookup st.app_names a }

/-- `AppReviewGUI.remove_app_id` (`gui.py` lines 240-251; `main.py`
lines 460-472): with no tree row selected (`sel = none`) the IndexError
path shows a warning (`true`) and changes nothing; otherwise the
selected row is deleted from the tree, its app id is removed from
`app_ids` and `app_names`, and the single-app combobox is refreshed.
(When the selected id is absent from `app_ids` the Python `list.remove`
raises instead of silently doing nothing; that path is unreachable
because tree rows are only ever inserted together with the id, and it
touches `all_app_data` in neither case.) -/
def remove_app_id (st : GuiState) (sel : Option Nat) : GuiState × Bool :=
  match sel with
  | none => (st, true)
  | some i =>
    match st.tree_items[i]? with
    | none => (st, true)
    | some row =>
      let appId := row.1
      let st' := { st with
        tree_items := st.tree_items.eraseIdx i
        app_ids := st.app_ids.erase appId
        app_names := st.app_names.filter fun p => decide (p.1 ≠ appId) }
      (update_single_app_combobox st', false)

/-- ASCII decimal digit test. -/
def isDigitCh (c : Char) : Bool := decide (48 ≤ c.toNat) && decide (c.toNat ≤ 57)

/-- ASCII whitespace test, the characters `int()` strips. -/
def isSpaceCh (c : Char) : Bool :=
  decide (c.toNat = 32) || decide (c.toNat = 9) || decide (c.toNat = 10)
    || decide (c.toNat = 13) || decide (c.toNat = 11) || decide (c.toNat = 12)

/-- A non-empty all-digit character list read as a number. -/
def parseDigits (ds : List Char) : Option Nat :=
  if ds = [] then none
  else if ds.all isDigitCh then
    some (ds.foldl (fun a c => a * 10 + (c.toNat - 48)) 0)
  else none

/-- `int(max_reviews_input)`: Python's integer parse of the Max Reviews
entry — optional surrounding whitespace, optional sign, decimal digits —
`none` when the text does not parse as an integer (the `ValueError`
path).  Pythonic extras such as underscore grouping are not modelled;
the claims only depend on some inputs parsing and others not. -/
def pyInt (s : String) : Option Int :=
  let cs := ((s.data.dropWhile isSpaceCh).reverse.dropWhile isSpaceCh).reverse
  match cs with
  | '-' :: ds => (parseDigits ds).map fun n => -(n : Int)
  | '+' :: ds => (parseDigits ds).map fun n => (n : Int)
  | ds => (parseDigits ds).map fun n => (n : Int)

/-- User-facing notices emitted by the fetch worker. -/
inductive GuiMsg where
  | warnNoAppIds
  | errInvalidMax
  | infoNoReviews (appId : String)
  | statusDone
deriving DecidableEq

/-- The per-app body of the fetch loop, `gui.py` lines 286-311:
`oracle appId cap` stands for the record list
`get_app_reviews(app_id, max_reviews=cap)` returns for one app; a
non-empty fetched set is stored into `all_app_data` and saved to
`<output_dir>/<app_id>_reviews.csv`, an empty one only produces an
informational notice. -/
def fetchStep (output_dir : String)
    (oracle : String → Option Int → List Review) (cap : Option Int)
    (acc : GuiState × List GuiMsg × FileSys) (appId : String) :
    GuiState × List GuiMsg × FileSys :=
  let s := acc.1
  let msgs := acc.2.1
  let f := acc.2.2
  let reviews_list := oracle appId cap
  if reviews_list = [] then
    (s, msgs ++ [GuiMsg.infoNoReviews appId], f)
  else
    let f' := save_reviews_to_csv reviews_list
      (output_dir ++ "/" ++ appId ++ "_reviews.csv") f
    ({ s with all_app_data := s.all_app_data ++ [(appId, reviews_list)] },
      msgs, f')

/-- `AppReviewGUI._fetch_reviews_thread` (`gui.py` lines 266-313;
`main.py` lines 480-529).  The worker first resets `self.all_app_data`
to `{}`, then aborts with a warning if no app id is tracked, then parses
the Max Reviews entry (empty text means no cap, unparsable text aborts
with a blocking error), and finally folds `fetchStep` over the tracked
app ids. -/
def fetch_reviews_thread (st : GuiState) (maxEntry : String)
    (oracle : String → Option Int → List Review) (fs : FileSys) :
    GuiState × List GuiMsg × FileSys :=
  let st0 := { st with all_app_data := [] }
  if st0.app_ids = [] then (st0, [GuiMsg.warnNoAppIds], fs)
  else
    let runFetch := fun (cap : Option Int) =>
      let out := st0.app_ids.foldl (fetchStep st0.output_dir oracle cap)
        (st0, [], fs)
      (out.1, out.2.1 ++ [GuiMsg.statusDone], out.2.2)
    if maxEntry = "" then runFetch none
    else
      match pyInt maxEntry with
      | none => (st0, [GuiMsg.errInvalidMax], fs)
      | some v => runFetch (some v)

/-- `AppReviewGUI.visualize_combined` (`gui.py` lines 348-357; same in
`main.py`): with fewer than two entries in `all_app_data` a warning is
shown and the chart is untouched (`none`); otherwise the combined plot
is drawn over the stored mapping (`some` of the plotted series). -/
def visualize_combined (st : GuiState) (plot_type : String) :
    Option (List (String × List ℚ)) :=
  if st.all_app_data.length < 2 then none
  else some (create_combined_plot st.all_app_data plot_type)

/-! ## Supporting lemmas -/

/-- `visualize_combined` reads the session state only through
`all_app_data`. -/
theorem visualize_combined_congr (s₁ s₂ : GuiState) (pt : String)
    (h : s₁.all_app_data = s₂.all_app_data) :
    visualize_combined s₁ pt = visualize_combined s₂ pt := by
  simp [visualize_combined, h]

/-- The fetch fold only ever stores non-empty review sets. -/
theorem foldl_fetchStep_nonempty (od : String)
    (oracle : String → Option Int → List Review) (cap : Option Int) :
    ∀ (ids : List String) (acc : GuiState × List GuiMsg × FileSys),
      (∀ p ∈ acc.1.all_app_data, p.2 ≠ []) →
      ∀ p ∈ (ids.foldl (fetchStep od oracle cap) acc).1.all_app_data, p.2 ≠ [] := by
  intro ids
  induction ids with
  | nil => intro acc h p hp; exact h p hp
  | cons a ids ih =>
    intro acc h p hp
    refine ih (fetchStep od oracle cap acc a) ?_ p hp
    intro q hq
    unfold fetchStep at hq
    by_cases hor : oracle a cap = []
    · simp only [hor, if_pos] at hq
      exact h q (by simpa using hq)
    · simp only [if_neg hor] at hq
      simp only [List.mem_append, List.mem_singleton] at hq
      rcases hq with hq | hq
      · exact h q hq
      · subst hq; exact hor

/-- Every review set the fetch worker leaves in `all_app_data` is
non-empty: the per-app branch stores a set only when
`get_app_reviews` returned at least one record (`gui.py` line 296).
This is the session invariant the combined-visualization guard relies
on. -/
theorem fetch_reviews_thread_stores_nonempty (st : GuiState)
    (maxEntry : String) (oracle : String → Option Int → List Review)
    (fs : FileSys) :
    ∀ p ∈ (fetch_reviews_thread st maxEntry oracle fs).1.all_app_data,
      p.2 ≠ [] := by
  intro p hp
  unfold fetch_reviews_thread at hp
  by_cases hids : st.app_ids = []
  · simp [hids] at hp
  · simp only [if_neg (by simpa using hids)] at hp
    by_cases hmax : maxEntry = ""
    · simp only [if_pos hmax] at hp
      exact foldl_fetchStep_nonempty _ oracle none st.app_ids _ (by simp) p hp
    · simp only [if_neg hmax] at hp
      cases hpi : pyInt maxEntry with
      | none => simp [hpi] at hp
      | some v =>
        simp only [hpi] at hp
        exact foldl_fetchStep_nonempty _ oracle (some v) st.app_ids _ (by simp) p hp

/-! ## Claim theorems -/

/-- C9: for an empty review set, `save_reviews_to_csv` writes no file
and returns normally: the file system is unchanged, for any filename. -/
theorem save_reviews_to_csv_empty_noop (filename : String) (fs : FileSys) :
    save_reviews_to_csv [] filename fs = fs := by
  simp [save_reviews_to_csv]

/-- C10: `remove_app_id` touches only the tracked-id list, the
id-to-name mapping, the results tree and the single-app combobox: the
stored review-set mapping `all_app_data` (and the output directory) is
unchanged, so a subsequent combined visualization behaves exactly as
before the removal. -/
theorem remove_app_id_preserves_all_app_data (st : GuiState)
    (sel : Option Nat) (pt : String) :
    (remove_app_id st sel).1.all_app_data = st.all_app_data ∧
    (remove_app_id st sel).1.output_dir = st.output_dir ∧
    visualize_combined (remove_app_id st sel).1 pt =
      visualize_combined st pt := by
  have hdata : (remove_app_id st sel).1.all_app_data = st.all_app_data := by
    cases sel with
    | none => rfl
    | some i =>
      cases h : st.tree_items[i]? with
      | none => simp [remove_app_id, h]
      | some row => simp [remove_app_id, h, update_single_app_combobox]
  have hout : (remove_app_id st sel).1.output_dir = st.output_dir := by
    cases sel with
    | none => rfl
    | some i =>
      cases h : st.tree_items[i]? with
      | none => simp [remove_app_id, h]
      | some row => simp [remove_app_id, h, update_single_app_combobox]
  exact ⟨hdata, hout, visualize_combined_congr _ _ pt hdata⟩

/-- C7: in any session state satisfying the fetch-worker invariant that
every stored review set is non-empty (`fetch_reviews_thread_stores_nonempty`),
if fewer than two non-empty review sets are held, `visualize_combined`
shows the warning and returns without calling the plotting routine, so
the chart is unchanged. -/
theorem visualize_combined_rejects_too_few (st : GuiState) (pt : String)
    (hinv : ∀ p ∈ st.all_app_data, p.2 ≠ [])
    (hlt : (st.all_app_data.filter fun p => decide (p.2 ≠ [])).length < 2) :
    visualize_combined st pt = none := by
  have hself : st.all_app_data.filter (fun p => decide (p.2 ≠ [])) =
      st.all_app_data :=
    List.filter_eq_self.mpr (fun p hp => by simpa using hinv p hp)
  rw [hself] at hlt
  simp [visualize_combined, hlt]

/-- A one-review review record used by the concrete checks. -/
def rvA : Review :=
  { app_id := "app.a", review_text := "good", review_date := ⟨2024, 1, 5⟩
    review_rating := 5 }

/-- A session state holding exactly one non-empty review set. -/
def guiStOne : GuiState :=
  { app_ids := ["app.a"]
    app_names := [("app.a", "App A")]
    tree_items := [("app.a", "App A")]
    single_combo := ["App A"]
    all_app_data := [("app.a", [rvA])]
    output_dir := "app_reviews" }

/-- Witness for C7: in the concrete one-app session the combined
visualization is rejected. -/
theorem visualize_combined_rejects_too_few_witness :
    visualize_combined guiStOne "cumulative" = none :=
  visualize_combined_rejects_too_few guiStOne "cumulative"
    (by intro p hp; simp [guiStOne] at hp; simp [hp])
    (by decide)

/-- C3 (amended): with at least one tracked app id and a non-empty Max
Reviews entry that does not parse as an integer, the fetch worker
reports the blocking error and returns before the fetch starts — no
provider call is consulted (the result does not depend on `oracle`), no
file is written (`fs` is returned unchanged) — but the stored review-set
mapping is NOT left as it was: the worker already reset `all_app_data`
to `{}` in its first statement (`gui.py` line 267), so the session keeps
an empty mapping. -/
theorem fetch_invalid_max_clears_and_aborts (st : GuiState)
    (maxEntry : String) (oracle : String → Option Int → List Review)
    (fs : FileSys) (hids : st.app_ids ≠ []) (hne : maxEntry ≠ "")
    (hbad : pyInt maxEntry = none) :
    fetch_reviews_thread st maxEntry oracle fs =
      ({ st with all_app_data := [] }, [GuiMsg.errInvalidMax], fs) := by
  unfold fetch_reviews_thread
  simp only [if_neg (by simpa using hids), if_neg hne, hbad]

/-- A session state with one tracked app and one stored review set. -/
def guiStFull : GuiState :=
  { app_ids := ["app.a"]
    app_names := [("app.a", "App A")]
    tree_items := [("app.a", "App A")]
    single_combo := ["App A"]
    all_app_data := [("app.a", [rvA])]
    output_dir := "app_reviews" }

/-- Counterexample for C3 as stated: in a session already holding a
review set, entering the unparsable cap "abc" aborts the fetch but does
not leave `all_app_data` as it was — the mapping comes back empty. -/
theorem fetch_invalid_max_not_atomic_cex :
    (fetch_reviews_thread guiStFull "abc" (fun _ _ => []) []).1.all_app_data
        = [] ∧
      guiStFull.all_app_data ≠ [] := by
  constructor
  · rfl
  · simp [guiStFull]

/-- Witness for the amended C3 theorem at a concrete session state. -/
theorem fetch_invalid_max_clears_and_aborts_witness :
    fetch_reviews_thread guiStFull "abc" (fun _ _ => []) [] =
      ({ guiStFull with all_app_data := [] }, [GuiMsg.errInvalidMax], []) :=
  fetch_invalid_max_clears_and_aborts guiStFull "abc" (fun _ _ => []) []
    (by simp [guiStFull]) (by decide) (by rfl)

/-- Processing a page only appends records to the accumulator
(cap-hit early-return case). -/
theorem processPage_inl_extends (maxR : Option Int) (appId : String) :
    ∀ (recs : List RawReview) (acc : List Review) (cnt : Nat)
      (l : List Review),
      processPage maxR appId recs acc cnt = Sum.inl l → ∃ t, l = acc ++ t := by
  intro recs
  induction recs with
  | nil => intro acc cnt l h; simp [processPage] at h
  | cons raw rest ih =>
    intro acc cnt l h
    unfold processPage at h
    by_cases hc : capReached maxR (cnt + 1)
    · simp only [hc, if_true] at h
      exact ⟨[mkReview appId raw], by simpa using h.symm⟩
    · simp only [hc, if_false] at h
      obtain ⟨t, ht⟩ := ih (acc ++ [mkReview appId raw]) (cnt + 1) l h
      exact ⟨[mkReview appId raw] ++ t, by simp [ht]⟩

/-- Processing a page only appends records to the accumulator
(page-completed case). -/
theorem processPage_inr_extends (maxR : Option Int) (appId : String) :
    ∀ (recs : List RawReview) (acc : List Review) (cnt : Nat)
      (a : List Review) (c : Nat),
      processPage maxR appId recs acc cnt = Sum.inr (a, c) →
        ∃ t, a = acc ++ t := by
  intro recs
  induction recs with
  | nil =>
    intro acc cnt a c h
    simp only [processPage, Sum.inr.injEq, Prod.mk.injEq] at h
    exact ⟨[], by simp [h.1]⟩
  | cons raw rest ih =>
    intro acc cnt a c h
    unfold processPage at h
    by_cases hc : capReached maxR (cnt + 1)
    · simp [hc] at h
    · simp only [hc, if_false] at h
      obtain ⟨t, ht⟩ := ih (acc ++ [mkReview appId raw]) (cnt + 1) a c h
      exact ⟨[mkReview appId raw] ++ t, by simp [ht]⟩

/-- An attempt that finishes normally returns the accumulator it started
from, extended by the newly fetched records. -/
theorem runAttempt_done_extends (maxR : Option Int) (appId : String) :
    ∀ (sched : Sched) (acc : List Review) (cnt : Nat) (res : List Review),
      runAttempt maxR appId sched acc cnt = .done res →
        ∃ t, res = acc ++ t := by
  intro sched
  induction sched with
  | nil => intro acc cnt res h; simp [runAttempt] at h
  | cons e rest ih =>
    intro acc cnt res h
    cases e with
    | error u => simp [runAttempt] at h
    | ok p =>
      unfold runAttempt at h
      cases hp : processPage maxR appId p.result acc cnt with
      | inl final =>
        simp only [hp] at h
        cases h
        exact processPage_inl_extends maxR appId p.result acc cnt res hp
      | inr ac =>
        obtain ⟨a', c'⟩ := ac
        simp only [hp] at h
        by_cases ht : p.next.token = none
        · simp only [ht, if_pos rfl] at h
          cases h
          exact processPage_inr_extends maxR appId p.result acc cnt res c' hp
        · simp only [if_neg ht] at h
          obtain ⟨t₁, ht₁⟩ :=
            processPage_inr_extends maxR appId p.result acc cnt a' c' hp
          obtain ⟨t₂, ht₂⟩ := ih a' c' res h
          exact ⟨t₁ ++ t₂, by simp [ht₂, ht₁]⟩

/-- An attempt aborted by an exception carries forward the accumulator
it started from, extended by the records of the pages completed before
the exception. -/
theorem runAttempt_failed_extends (maxR : Option Int) (appId : String) :
    ∀ (sched : Sched) (acc : List Review) (cnt : Nat) (rest : Sched)
      (a : List Review) (c : Nat),
      runAttempt maxR appId sched acc cnt = .failed rest a c →
        ∃ t, a = acc ++ t := by
  intro sched
  induction sched with
  | nil => intro acc cnt rest a c h; simp [runAttempt] at h
  | cons e tail ih =>
    intro acc cnt rest a c h
    cases e with
    | error u =>
      simp only [runAttempt, AttemptOutcome.failed.injEq] at h
      exact ⟨[], by simp [h.2.1]⟩
    | ok p =>
      unfold runAttempt at h
      cases hp : processPage maxR appId p.result acc cnt with
      | inl final => simp [hp] at h
      | inr ac =>
        obtain ⟨a', c'⟩ := ac
        simp only [hp] at h
        by_cases ht : p.next.token = none
        · simp [ht] at h
        · simp only [if_neg ht] at h
          obtain ⟨t₁, ht₁⟩ :=
            processPage_inr_extends maxR appId p.result acc cnt a' c' hp
          obtain ⟨t₂, ht₂⟩ := ih a' c' rest a c h
          exact ⟨t₁ ++ t₂, by simp [ht₂, ht₁]⟩

/-- C6: whenever all three pagination attempts raise, `get_app_reviews`
returns the empty list — it neither raises nor returns the partially
accumulated records, so the caller observes "no data". -/
theorem get_app_reviews_all_attempts_fail (maxR : Option Int)
    (appId : String) (sched r₁ r₂ r₃ : Sched) (a₁ a₂ a₃ : List Review)
    (c₁ c₂ c₃ : Nat)
    (h₁ : runAttempt maxR appId sched [] 0 = .failed r₁ a₁ c₁)
    (h₂ : runAttempt maxR appId r₁ a₁ c₁ = .failed r₂ a₂ c₂)
    (h₃ : runAttempt maxR appId r₂ a₂ c₂ = .failed r₃ a₃ c₃) :
    get_app_reviews appId maxR sched = some [] := by
  unfold get_app_reviews
  rw [goAttempts, h₁]
  norm_num
  rw [goAttempts, h₂]
  norm_num
  rw [goAttempts, h₃]
  simp

/-- Witness for C6: a provider that raises on every call makes all three
attempts fail and the fetch return the empty list. -/
theorem get_app_reviews_all_attempts_fail_witness :
    get_app_reviews "app.a" none
        [Except.error (), Except.error (), Except.error ()] = some [] :=
  get_app_reviews_all_attempts_fail none "app.a"
    [Except.error (), Except.error (), Except.error ()]
    [Except.error (), Except.error ()] [Except.error ()] []
    [] [] [] 0 0 0 rfl rfl rfl

/-- A raw review served before the synthetic failure. -/
def rawGood : RawReview := ⟨"good", ⟨2024, 1, 1⟩, 5⟩

/-- A raw review served by the attempt that succeeds. -/
def rawBad : RawReview := ⟨"bad", ⟨2024, 1, 15⟩, 1⟩

/-- A synthetic paginator: the first attempt fetches one page and then
raises; the retry succeeds with one further page. -/
def schedMix : Sched :=
  [Except.ok ⟨[rawGood], ⟨some 1⟩⟩, Except.error (),
    Except.ok ⟨[rawBad], ⟨none⟩⟩]

/-- Counterexample for C1: on `schedMix` the failed first attempt
accumulated `rawGood`'s record, yet the returned list still contains it
next to the successful attempt's record — the result is a mix of
failed-attempt and successful-attempt records and differs from the
discard-and-restart result `spec_get_app_reviews` predicts. -/
theorem get_app_reviews_mixes_failed_attempt_cex :
    get_app_reviews "app.a" none schedMix =
        some [mkReview "app.a" rawGood, mkReview "app.a" rawBad] ∧
      spec_get_app_reviews "app.a" none schedMix =
        some [mkReview "app.a" rawBad] ∧
      mkReview "app.a" rawGood ≠ mkReview "app.a" rawBad := by
  have h₁ : runAttempt none "app.a" schedMix [] 0 =
      .failed [Except.ok ⟨[rawBad], ⟨none⟩⟩] [mkReview "app.a" rawGood] 1 :=
    rfl
  have h₂ : runAttempt none "app.a" [Except.ok ⟨[rawBad], ⟨none⟩⟩]
      [mkReview "app.a" rawGood] 1 =
      .done [mkReview "app.a" rawGood, mkReview "app.a" rawBad] := rfl
  have h₃ : runAttempt none "app.a" [Except.ok ⟨[rawBad], ⟨none⟩⟩] [] 0 =
      .done [mkReview "app.a" rawBad] := rfl
  refine ⟨?_, ?_, by decide⟩
  · unfold get_app_reviews
    rw [goAttempts, h₁]
    norm_num
    rw [goAttempts, h₂]
  · unfold spec_get_app_reviews
    rw [specDiscardGo, h₁]
    norm_num
    rw [specDiscardGo, h₃]

/-- C1 (amended): when a pagination attempt raises and a later attempt
(within the 3-attempt budget) finishes normally, the retry does NOT
restart from scratch: the records accumulated by the failed attempt are
retained as a prefix of the returned list, and the run resumes with the
carried accumulator, count and schedule position. -/
theorem get_app_reviews_retry_retains_state (maxR : Option Int)
    (appId : String) (sched r₁ r₂ : Sched) (a₁ a₂ res : List Review)
    (c₁ c₂ : Nat)
    (h₁ : runAttempt maxR appId sched [] 0 = .failed r₁ a₁ c₁)
    (hrest : runAttempt maxR appId r₁ a₁ c₁ = .done res ∨
      (runAttempt maxR appId r₁ a₁ c₁ = .failed r₂ a₂ c₂ ∧
        runAttempt maxR appId r₂ a₂ c₂ = .done res)) :
    get_app_reviews appId maxR sched = some res ∧ ∃ t, res = a₁ ++ t := by
  rcases hrest with h₂ | ⟨h₂, h₃⟩
  · constructor
    · unfold get_app_reviews
      rw [goAttempts, h₁]
      norm_num
      rw [goAttempts, h₂]
    · exact runAttempt_done_extends maxR appId r₁ a₁ c₁ res h₂
  · constructor
    · unfold get_app_reviews
      rw [goAttempts, h₁]
      norm_num
      rw [goAttempts, h₂]
      norm_num
      rw [goAttempts, h₃]
    · obtain ⟨t₁, ht₁⟩ :=
        runAttempt_failed_extends maxR appId r₁ a₁ c₁ r₂ a₂ c₂ h₂
      obtain ⟨t₂, ht₂⟩ := runAttempt_done_extends maxR appId r₂ a₂ c₂ res h₃
      exact ⟨t₁ ++ t₂, by simp [ht₂, ht₁]⟩

/-- Witness for the amended C1 theorem: two failing attempts followed by
a successful one, with the first attempt's record kept in the result. -/
theorem get_app_reviews_retry_retains_state_witness :
    get_app_reviews "app.a" none
        [Except.ok ⟨[rawGood], ⟨some 1⟩⟩, Except.error (), Except.error (),
          Except.ok ⟨[rawBad], ⟨none⟩⟩] =
        some [mkReview "app.a" rawGood, mkReview "app.a" rawBad] ∧
      ∃ t, [mkReview "app.a" rawGood, mkReview "app.a" rawBad] =
        [mkReview "app.a" rawGood] ++ t :=
  get_app_reviews_retry_retains_state none "app.a"
    [Except.ok ⟨[rawGood], ⟨some 1⟩⟩, Except.error (), Except.error (),
      Except.ok ⟨[rawBad], ⟨none⟩⟩]
    [Except.error (), Except.ok ⟨[rawBad], ⟨none⟩⟩]
    [Except.ok ⟨[rawBad], ⟨none⟩⟩]
    [mkReview "app.a" rawGood] [mkReview "app.a" rawGood]
    [mkReview "app.a" rawGood, mkReview "app.a" rawBad] 1 1
    rfl (Or.inr ⟨rfl, rfl⟩)

/-- If the cap lies within the current page, processing the page hits
the per-record early return with exactly `C` records accumulated. -/
theorem processPage_reaches_cap (C : Int) (appId : String) :
    ∀ (recs : List RawReview) (acc : List Review) (cnt : Nat),
      acc.length = cnt → (cnt : Int) < C → C ≤ (cnt : Int) + recs.length →
      ∃ l, processPage (some C) appId recs acc cnt = Sum.inl l ∧
        (l.length : Int) = C := by
  intro recs
  induction recs with
  | nil =>
    intro acc cnt hlen hlt hle
    simp only [List.length_nil, Nat.cast_zero, add_zero] at hle
    omega
  | cons raw rest ih =>
    intro acc cnt hlen hlt hle
    unfold processPage
    by_cases hc : capReached (some C) (cnt + 1)
    · refine ⟨acc ++ [mkReview appId raw], by simp [hc], ?_⟩
      simp only [capReached, decide_eq_true_eq] at hc
      simp only [List.length_append, List.length_singleton, hlen]
      push_cast
      omega
    · simp only [hc, if_false]
      simp only [capReached, decide_eq_true_eq, not_le] at hc
      refine ih (acc ++ [mkReview appId raw]) (cnt + 1)
        (by simp [hlen]) (by exact_mod_cast hc) ?_
      simp only [List.length_cons] at hle
      push_cast at hle ⊢
      omega

/-- If the cap lies beyond the current page, the whole page is
appended and the count advances by the page size. -/
theorem processPage_below_cap (C : Int) (appId : String) :
    ∀ (recs : List RawReview) (acc : List Review) (cnt : Nat),
      acc.length = cnt → (cnt : Int) + recs.length < C →
      ∃ acc', processPage (some C) appId recs acc cnt =
          Sum.inr (acc', cnt + recs.length) ∧
        acc'.length = cnt + recs.length := by
  intro recs
  induction recs with
  | nil =>
    intro acc cnt hlen hlt
    exact ⟨acc, by simp [processPage], by simp [hlen]⟩
  | cons raw rest ih =>
    intro acc cnt hlen hlt
    unfold processPage
    have hc : ¬ capReached (some C) (cnt + 1) := by
      simp only [capReached, decide_eq_true_eq, not_le]
      simp only [List.length_cons] at hlt
      push_cast at hlt ⊢
      omega
    simp only [hc, if_false]
    obtain ⟨acc', h1, h2⟩ := ih (acc ++ [mkReview appId raw]) (cnt + 1)
      (by simp [hlen])
      (by simp only [List.length_cons] at hlt; push_cast at hlt ⊢; omega)
    have heq : cnt + 1 + rest.length = cnt + (raw :: rest).length := by
      simp only [List.length_cons]
      omega
    exact ⟨acc', by simp [h1, heq], by rw [h2, heq]⟩

/-- With a positive cap no larger than what the stream offers, the very
first pagination attempt finishes via the per-record early return with
exactly `C` accumulated records. -/
theorem runAttempt_reaches_cap (C : Int) (appId : String) :
    ∀ (sched : Sched) (acc : List Review) (cnt : Nat),
      acc.length = cnt → (cnt : Int) < C →
      C ≤ (cnt : Int) + streamOffers sched →
      ∃ l, runAttempt (some C) appId sched acc cnt = .done l ∧
        (l.length : Int) = C := by
  intro sched
  induction sched with
  | nil =>
    intro acc cnt hlen hlt hle
    simp only [streamOffers, Nat.cast_zero, add_zero] at hle
    omega
  | cons e rest ih =>
    intro acc cnt hlen hlt hle
    cases e with
    | error u =>
      simp only [streamOffers, Nat.cast_zero, add_zero] at hle
      omega
    | ok p =>
      unfold runAttempt
      by_cases hin : C ≤ (cnt : Int) + p.result.length
      · obtain ⟨l, hl, hlc⟩ :=
          processPage_reaches_cap C appId p.result acc cnt hlen hlt hin
        exact ⟨l, by simp [hl], hlc⟩
      · push_neg at hin
        obtain ⟨acc', h1, h2⟩ :=
          processPage_below_cap C appId p.result acc cnt hlen hin
        simp only [h1]
        by_cases ht : p.next.token = none
        · exfalso
          simp only [streamOffers, ht, if_pos rfl, add_zero] at hle
          push_cast at hle
          omega
        · simp only [if_neg ht]
          refine ih acc' (cnt + p.result.length) h2
            (by exact_mod_cast hin) ?_
          simp only [streamOffers, if_neg ht] at hle
          push_cast at hle ⊢
          omega

/-- C2 (amended): for every numeric cap `C ≥ 1` and every paginated
stream offering at least `C` reviews, `get_app_reviews` with
`max_reviews = C` returns exactly `C` records; the cap is enforced
per-record, so the fetch stops mid-page rather than at a page
boundary. -/
theorem get_app_reviews_cap_exact (C : Int) (appId : String)
    (sched : Sched) (hpos : 1 ≤ C) (hoff : C ≤ (streamOffers sched : Int)) :
    ∃ l, get_app_reviews appId (some C) sched = some l ∧
      (l.length : Int) = C := by
  obtain ⟨l, hl, hlc⟩ := runAttempt_reaches_cap C appId sched [] 0
    (by simp) (by omega) (by simpa using hoff)
  exact ⟨l, by unfold get_app_reviews; rw [goAttempts, hl], hlc⟩

/-- A one-page stream offering a single review and ending its
pagination. -/
def schedOne : Sched := [Except.ok ⟨[rawGood], ⟨none⟩⟩]

/-- Counterexample for C2 as stated over every numeric cap: with cap
`C = 0` and a stream offering 1 ≥ 0 reviews, the fetch returns one
record, not zero, because the cap test `review_count >= max_reviews`
runs only after the first record was appended. -/
theorem get_app_reviews_cap_zero_cex :
    streamOffers schedOne = 1 ∧
      get_app_reviews "app.a" (some 0) schedOne =
        some [mkReview "app.a" rawGood] ∧
      [mkReview "app.a" rawGood].length ≠ 0 := by
  refine ⟨rfl, ?_, by simp⟩
  have h : runAttempt (some 0) "app.a" schedOne [] 0 =
      .done [mkReview "app.a" rawGood] := rfl
  unfold get_app_reviews
  rw [goAttempts, h]

/-- Witness for the amended C2 theorem: cap 1 against a two-review page
returns exactly one record. -/
theorem get_app_reviews_cap_exact_witness :
    ∃ l, get_app_reviews "app.a" (some 1)
        [Except.ok ⟨[rawGood, rawBad], ⟨none⟩⟩] = some l ∧
      (l.length : Int) = 1 :=
  get_app_reviews_cap_exact 1 "app.a"
    [Except.ok ⟨[rawGood, rawBad], ⟨none⟩⟩] (by norm_num) (by norm_num [streamOffers])

/-- C8: for a non-empty review set and any plot-kind string outside
{"cumulative", "rolling", "monthly"}, `create_plot` computes and plots
exactly the aggregate series of the cumulative branch (same x values,
same y values, same y label; only the title gains the
"(Invalid plot_type)" suffix). -/
theorem create_plot_unknown_kind_eq_cumulative (reviews : List Review)
    (pt : String) (appId : Option String) (hne : reviews ≠ [])
    (h1 : pt ≠ "cumulative") (h2 : pt ≠ "rolling") (h3 : pt ≠ "monthly") :
    ∃ pdU pdC, create_plot reviews pt appId = some pdU ∧
      create_plot reviews "cumulative" appId = some pdC ∧
      pdU.xs = pdC.xs ∧ pdU.ys = pdC.ys ∧ pdU.ylabel = pdC.ylabel := by
  simp only [create_plot, if_neg hne, if_neg h1, if_neg h2, if_neg h3,
    if_pos rfl]
  exact ⟨_, _, rfl, rfl, rfl, rfl, rfl⟩

/-- Witness for C8 at the plot kind "banana" over a one-review set. -/
theorem create_plot_unknown_kind_eq_cumulative_witness :
    ∃ pdU pdC, create_plot [rvA] "banana" none = some pdU ∧
      create_plot [rvA] "cumulative" none = some pdC ∧
      pdU.xs = pdC.xs ∧ pdU.ys = pdC.ys ∧ pdU.ylabel = pdC.ylabel :=
  create_plot_unknown_kind_eq_cumulative [rvA] "banana" none
    (by simp) (by decide) (by decide) (by decide)

/-- A stable sort leaves an already date-sorted list unchanged, so on a
date-sorted input `sort_values("review_date")` is the identity. -/
theorem sortByDate_sorted_eq : ∀ (l : List Review),
    List.Pairwise (fun a b => dateLe a.review_date b.review_date = true) l →
    sortByDate l = l := by
  intro l
  induction l with
  | nil => intro h; rfl
  | cons a rest ih =>
    intro h
    obtain ⟨hhead, htail⟩ := List.pairwise_cons.mp h
    have hrest : sortByDate rest = rest := ih htail
    have hstep : sortByDate (a :: rest) = insertByDate a (sortByDate rest) :=
      rfl
    rw [hstep, hrest]
    cases rest with
    | nil => rfl
    | cons b bs =>
      have hb : dateLe a.review_date b.review_date = true :=
        hhead b (by simp)
      have hlt : dateLt b.review_date a.review_date = false := by
        simpa [dateLe, Bool.not_eq_true'] using hb
      simp [insertByDate, hlt]

/-- Closed form of the expanding-mean scan: starting from partial sum
`s` over `n` earlier entries, the i-th output is the mean of the first
`n + i + 1` entries. -/
theorem expandingGo_eq_map : ∀ (xs : List ℚ) (s : ℚ) (n : Nat),
    expandingGo xs s n = (List.range xs.length).map
      fun i => (s + (xs.take (i + 1)).sum) / ((n : ℚ) + i + 1) := by
  intro xs
  induction xs with
  | nil => intro s n; rfl
  | cons x rest ih =>
    intro s n
    have hstep : expandingGo (x :: rest) s n =
        ((s + x) / ((n : ℚ) + 1)) :: expandingGo rest (s + x) (n + 1) := rfl
    rw [hstep, List.length_cons, List.range_succ_eq_map, List.map_cons]
    congr 1
    · simp
    · rw [ih (s + x) (n + 1), List.map_map]
      refine List.map_congr_left ?_
      intro i hi
      simp only [Function.comp_apply, Nat.succ_eq_add_one,
        List.take_succ_cons, List.sum_cons]
      push_cast
      ring

/-- C4: on a non-empty date-sorted review sequence, the cumulative
aggregate `create_plot` plots has, at every position i, the arithmetic
mean of the ratings at positions 0..i; in particular the value at the
last chronological point is the arithmetic mean of all ratings. -/
theorem create_plot_cumulative_prefix_means (reviews : List Review)
    (hs : List.Pairwise
      (fun a b => dateLe a.review_date b.review_date = true) reviews)
    (hne : reviews ≠ []) :
    ∃ pd, create_plot reviews "cumulative" none = some pd ∧
      pd.ys = (List.range reviews.length).map
        (fun i => ((reviews.take (i + 1)).map
          fun r => (r.review_rating : ℚ)).sum / ((i : ℚ) + 1)) ∧
      pd.ys.get? (reviews.length - 1) =
        some ((reviews.map fun r => (r.review_rating : ℚ)).sum /
          (reviews.length : ℚ)) := by
  have hsort : sortByDate reviews = reviews := sortByDate_sorted_eq reviews hs
  have hys : expandingMean (reviews.map fun r => (r.review_rating : ℚ)) =
      (List.range reviews.length).map
        (fun i => ((reviews.take (i + 1)).map
          fun r => (r.review_rating : ℚ)).sum / ((i : ℚ) + 1)) := by
    rw [expandingMean, expandingGo_eq_map]
    simp only [List.length_map, Nat.cast_zero, zero_add, ← List.map_take]
  have hpos : 0 < reviews.length := List.length_pos.mpr hne
  have hcp : create_plot reviews "cumulative" none =
      some { title := "Cumulative Average Rating Over Time"
             ylabel := "Cumulative Average Rating"
             xs := reviews.map fun r => r.review_date
             ys := expandingMean (reviews.map fun r => (r.review_rating : ℚ)) } := by
    simp only [create_plot, if_neg hne, if_pos rfl, if_true, hsort]
  refine ⟨_, hcp, ?_, ?_⟩
  · simpa only [hsort] using hys
  · simp only [hsort, hys, List.get?_map]
    rw [List.get?_range (by omega)]
    have h1 : reviews.length - 1 + 1 = reviews.length :=
      Nat.succ_pred_eq_of_pos hpos
    rw [Option.map_some', h1, List.take_length]
    congr 1
    rw [← h1]
    push_cast
    ring

/-- A second review dated after `rvA`, for sorted concrete inputs. -/
def rvB : Review :=
  { app_id := "app.a", review_text := "ok", review_date := ⟨2024, 2, 10⟩
    review_rating := 3 }

/-- Witness for C4 at the concrete sorted two-review sequence. -/
theorem create_plot_cumulative_prefix_means_witness :
    ∃ pd, create_plot [rvA, rvB] "cumulative" none = some pd ∧
      pd.ys = (List.range ([rvA, rvB] : List Review).length).map
        (fun i => ((([rvA, rvB] : List Review).take (i + 1)).map
          fun r => (r.review_rating : ℚ)).sum / ((i : ℚ) + 1)) ∧
      pd.ys.get? (([rvA, rvB] : List Review).length - 1) =
        some ((([rvA, rvB] : List Review).map
          fun r => (r.review_rating : ℚ)).sum /
            (([rvA, rvB] : List Review).length : ℚ)) :=
  create_plot_cumulative_prefix_means [rvA, rvB]
    (by simp [rvA, rvB, dateLe, dateLt]) (by simp)

/-- Inserting a review is a permutation of consing it. -/
theorem insertByDate_perm (x : Review) :
    ∀ (l : List Review), (insertByDate x l).Perm (x :: l) := by
  intro l
  induction l with
  | nil => exact List.Perm.refl _
  | cons y ys ih =>
    unfold insertByDate
    by_cases h : dateLt y.review_date x.review_date
    · simp only [h, if_true]
      exact (ih.cons y).trans (List.Perm.swap x y ys)
    · simp only [h, if_false]
      exact List.Perm.refl _

/-- Sorting by date permutes the rows (as `sort_values` does). -/
theorem sortByDate_perm : ∀ (l : List Review), (sortByDate l).Perm l := by
  intro l
  induction l with
  | nil => exact List.Perm.refl _
  | cons a as ih =>
    have hstep : sortByDate (a :: as) = insertByDate a (sortByDate as) := rfl
    rw [hstep]
    exact (insertByDate_perm a (sortByDate as)).trans (ih.cons a)

/-- Membership is preserved by first-occurrence deduplication. -/
theorem mem_dedupKeys (l : List (Nat × Nat)) (a : Nat × Nat) :
    a ∈ dedupKeys l ↔ a ∈ l := by
  match l with
  | [] => simp [dedupKeys]
  | k :: ks =>
    rw [dedupKeys]
    have ih := mem_dedupKeys (ks.filter fun x => decide (x ≠ k)) a
    simp only [List.mem_cons, ih, List.mem_filter, decide_eq_true_eq]
    constructor
    · rintro (rfl | ⟨h1, h2⟩)
      · exact Or.inl rfl
      · exact Or.inr h1
    · rintro (rfl | h1)
      · exact Or.inl rfl
      · by_cases hak : a = k
        · exact Or.inl hak
        · exact Or.inr ⟨h1, hak⟩
termination_by l.length
decreasing_by
  simp_wf
  exact Nat.lt_succ_of_le (List.length_filter_le _ _)

/-- First-occurrence deduplication yields a duplicate-free key list. -/
theorem dedupKeys_nodup (l : List (Nat × Nat)) : (dedupKeys l).Nodup := by
  match l with
  | [] => simp [dedupKeys]
  | k :: ks =>
    rw [dedupKeys]
    refine List.nodup_cons.mpr ⟨?_, dedupKeys_nodup _⟩
    intro hmem
    have hk := (mem_dedupKeys _ k).mp hmem
    simp [List.mem_filter] at hk
termination_by l.length
decreasing_by
  simp_wf
  exact Nat.lt_succ_of_le (List.length_filter_le _ _)

/-- In a duplicate-free list, filtering for one contained key yields
exactly that key once. -/
theorem nodup_filter_eq_singleton :
    ∀ (l : List (Nat × Nat)) (k : Nat × Nat), l.Nodup → k ∈ l →
      l.filter (fun x => decide (x = k)) = [k] := by
  intro l
  induction l with
  | nil => intro k _ hmem; simp at hmem
  | cons a as ih =>
    intro k hnd hmem
    obtain ⟨hna, hnd'⟩ := List.nodup_cons.mp hnd
    rcases List.mem_cons.mp hmem with rfl | hmem'
    · rw [List.filter_cons, if_pos (by simp)]
      have hrest : as.filter (fun x => decide (x = k)) = [] := by
        refine List.filter_eq_nil.mpr ?_
        intro x hx
        simp only [decide_eq_true_eq]
        rintro rfl
        exact hna hx
      rw [hrest]
    · have hne : a ≠ k := by
        rintro rfl
        exact hna hmem'
      rw [List.filter_cons, if_neg (by simp [hne])]
      exact ih k hnd' hmem'

/-- Filtering the keyed aggregate for one key is filtering the key list
first. -/
theorem filter_fst_map (g : (Nat × Nat) → ℚ) (k : Nat × Nat) :
    ∀ (ks : List (Nat × Nat)),
      ((ks.map fun e => (e, g e)).filter fun e => decide (e.1 = k)) =
        (ks.filter fun x => decide (x = k)).map fun e => (e, g e) := by
  intro ks
  induction ks with
  | nil => rfl
  | cons a as ih =>
    by_cases h : a = k
    · simp [List.filter_cons, h, ih]
    · simp [List.filter_cons, h, ih]

/-- C5: the monthly aggregate groups strictly by calendar month of
`review_date`: any two reviews of the set whose dates share (year,
month) both land in the one group for that key — the aggregate holds
exactly one entry for the key — and that entry's value is the mean
rating over all the set's reviews of that month, regardless of the day
within the month. -/
theorem monthly_aggregate_groups_by_calendar_month (rows : List Review)
    (r₁ r₂ : Review) (h₁ : r₁ ∈ rows) (h₂ : r₂ ∈ rows)
    (hk : monthKey r₂.review_date = monthKey r₁.review_date) :
    r₁ ∈ rows.filter
        (fun r => decide (monthKey r.review_date = monthKey r₁.review_date)) ∧
      r₂ ∈ rows.filter
        (fun r => decide (monthKey r.review_date = monthKey r₁.review_date)) ∧
      (monthlyAggregate rows).filter
          (fun e => decide (e.1 = monthKey r₁.review_date)) =
        [(monthKey r₁.review_date,
          mean ((rows.filter (fun r =>
              decide (monthKey r.review_date = monthKey r₁.review_date))).map
            fun r => (r.review_rating : ℚ)))] := by
  refine ⟨List.mem_filter.mpr ⟨h₁, by simp⟩,
    List.mem_filter.mpr ⟨h₂, by simp [hk]⟩, ?_⟩
  have hperm : (sortByDate rows).Perm rows := sortByDate_perm rows
  have hr1df : r₁ ∈ sortByDate rows := hperm.mem_iff.mpr h₁
  have hkd : monthKey r₁.review_date ∈
      dedupKeys ((sortByDate rows).map fun r => monthKey r.review_date) :=
    (mem_dedupKeys _ _).mpr (List.mem_map.mpr ⟨r₁, hr1df, rfl⟩)
  have hnd :=
    dedupKeys_nodup ((sortByDate rows).map fun r => monthKey r.review_date)
  have hma : monthlyAggregate rows =
      (dedupKeys ((sortByDate rows).map fun r => monthKey r.review_date)).map
        fun e => (e, mean (((sortByDate rows).filter fun r =>
          decide (monthKey r.review_date = e)).map
            fun r => (r.review_rating : ℚ))) := rfl
  rw [hma, filter_fst_map,
    nodup_filter_eq_singleton _ (monthKey r₁.review_date) hnd hkd,
    List.map_singleton]
  have hpf : ((sortByDate rows).filter fun r =>
      decide (monthKey r.review_date = monthKey r₁.review_date)).Perm
        (rows.filter fun r =>
          decide (monthKey r.review_date = monthKey r₁.review_date)) :=
    hperm.filter _
  have hsum := (hpf.map fun r => (r.review_rating : ℚ)).sum_eq
  have hlen := hpf.length_eq
  simp only [mean, hsum, List.length_map, hlen]

/-- A third review in the same calendar month as `rvB` but on another
day. -/
def rvC : Review :=
  { app_id := "app.a", review_text := "meh", review_date := ⟨2024, 2, 25⟩
    review_rating := 4 }

/-- Witness for C5: `rvB` and `rvC` (same month, different days) share
the single February-2024 group, whose value is their mean. -/
theorem monthly_aggregate_groups_by_calendar_month_witness :
    rvB ∈ ([rvA, rvB, rvC] : List Review).filter
        (fun r => decide (monthKey r.review_date = monthKey rvB.review_date)) ∧
      rvC ∈ ([rvA, rvB, rvC] : List Review).filter
        (fun r => decide (monthKey r.review_date = monthKey rvB.review_date)) ∧
      (monthlyAggregate [rvA, rvB, rvC]).filter
          (fun e => decide (e.1 = monthKey rvB.review_date)) =
        [(monthKey rvB.review_date,
          mean ((([rvA, rvB, rvC] : List Review).filter (fun r =>
              decide (monthKey r.review_date = monthKey rvB.review_date))).map
            fun r => (r.review_rating : ℚ)))] :=
  monthly_aggregate_groups_by_calendar_month [rvA, rvB, rvC] rvB rvC
    (by simp) (by simp) (by decide)
